import Mathlib

/-!
Verification development for the slim_grab repository (two scraper scripts,
src/slim_gh_grabber/slim_scraper.py and src/slim/slim.py, plus an export
utility).  The Python functions are shallowly embedded as Lean functions;
network responses, which the scripts obtain through requests.get, are
supplied by explicit oracle functions, and the SQLite table with its
PRIMARY KEY constraint is embedded as a list of rows with an
insert-if-absent operation.  Side effects that matter to the specification
(language lookups, PR fetches, insert attempts, commits, progress saves)
are recorded in an explicit event trace.
-/

namespace SlimGrab

/-! ### Small string helpers -/

/-- Serialization of a list of strings in the way Python's json.dumps
renders a list of strings (used for the languages and affected_files
columns).  Assumes the strings need no JSON escaping, which holds for
language names and file paths appearing in the claims. -/
def jsonList (xs : List String) : String :=
  "[" ++ String.intercalate ", " (xs.map (fun s => "\"" ++ s ++ "\"")) ++ "]"

/-- Whether the pattern list is a prefix of the character list
(used to embed Python's substring test). -/
def startsWithChars : List Char → List Char → Bool
  | [], _ => true
  | _ :: _, [] => false
  | a :: as, b :: bs => a = b && startsWithChars as bs

/-- Whether the pattern occurs as a contiguous substring of the character
list (embeds Python's "pat in s" test on strings). -/
def containsSub (pat : List Char) : List Char → Bool
  | [] => startsWithChars pat []
  | c :: cs => startsWithChars pat (c :: cs) || containsSub pat cs

/-! ### Reference extractor: get_issues_from_pr (slim_scraper.py lines 136-158)

The Python code runs re.findall with re.IGNORECASE over two patterns:

  pattern 1:  (?:close[sd]?|fix(?:e[sd])?|resolve[sd]?)\s+#(\d+)
  pattern 2:  (?:close[sd]?|fix(?:e[sd])?|resolve[sd]?)\s+REPO#(\d+)

where REPO is repo_name.replace('/', '\\/'), i.e. the repository name
spliced into the pattern with only '/' escaped.  The matcher below
implements exactly this pattern family over lists of characters.  In the
spliced repository name a '.' is a regex metacharacter matching any
character except a newline; every other character that can occur in a
GitHub repository full name ([A-Za-z0-9_.-] and '/') is matched literally
(case-insensitively, because of re.IGNORECASE), which is exactly what the
generated pattern does. -/

/-- ASCII lower-casing, as re.IGNORECASE uses for the ASCII inputs of the
patterns at hand. -/
def lowerChar (c : Char) : Char :=
  if 'A' ≤ c ∧ c ≤ 'Z' then Char.ofNat (c.toNat + 32) else c

/-- Python \s on the inputs at hand: ASCII whitespace. -/
def isWsChar (c : Char) : Bool :=
  c = ' ' || c = '\t' || c = '\n' || c = '\r' || c = '\x0b' || c = '\x0c'

/-- Python \d on the inputs at hand: ASCII digits. -/
def isDigitChar (c : Char) : Bool :=
  '0' ≤ c && c ≤ '9'

/-- Case-insensitive literal match; returns the remaining input on
success. -/
def matchCI : List Char → List Char → Option (List Char)
  | [], s => some s
  | _ :: _, [] => none
  | p :: ps, c :: cs => if lowerChar p = lowerChar c then matchCI ps cs else none

/-- Greedy match of the optional [sd]? suffix of close/resolve.  The
character consumed optionally is never whitespace while the pattern
continues with \s+, so the greedy choice agrees with Python's
backtracking. -/
def matchOptSD : List Char → List Char
  | c :: cs => if lowerChar c = 's' ∨ lowerChar c = 'd' then cs else c :: cs
  | [] => []

/-- Greedy match of the optional (?:e[sd])? suffix of fix; again the
greedy choice agrees with Python's backtracking because \s+ follows. -/
def matchOptESD : List Char → List Char
  | c1 :: c2 :: cs =>
      if lowerChar c1 = 'e' ∧ (lowerChar c2 = 's' ∨ lowerChar c2 = 'd') then cs
      else c1 :: c2 :: cs
  | s => s

/-- The keyword alternation (?:close[sd]?|fix(?:e[sd])?|resolve[sd]?).
The three alternatives begin with distinct letters, so trying them in
order without backtracking is faithful. -/
def matchKeyword (s : List Char) : Option (List Char) :=
  match matchCI ('c' :: 'l' :: 'o' :: 's' :: 'e' :: []) s with
  | some rest => some (matchOptSD rest)
  | none =>
    match matchCI ('f' :: 'i' :: 'x' :: []) s with
    | some rest => some (matchOptESD rest)
    | none =>
      match matchCI ('r' :: 'e' :: 's' :: 'o' :: 'l' :: 'v' :: 'e' :: []) s with
      | some rest => some (matchOptSD rest)
      | none => none

/-- Match of the spliced repository-name part of pattern 2: a '.' in the
name acts as the regex wildcard (anything but newline), every other
character matches literally and case-insensitively.  For pattern 1 the
part is empty. -/
def matchRepoPat : List Char → List Char → Option (List Char)
  | [], s => some s
  | _ :: _, [] => none
  | p :: ps, c :: cs =>
      if p = '.' then (if c = '\n' then none else matchRepoPat ps cs)
      else if lowerChar p = lowerChar c then matchRepoPat ps cs
      else none

/-- Greedy capture of \d+ (maximal run of digits; nothing follows it in
the pattern, so greediness is faithful). -/
def takeDigits : List Char → List Char × List Char
  | [] => ([], [])
  | c :: cs =>
      if isDigitChar c then
        let (ds, r) := takeDigits cs
        (c :: ds, r)
      else ([], c :: cs)

/-- Tail of both patterns after the whitespace: the spliced repository
part (empty for pattern 1), then '#', then the captured digits. -/
def matchTail (middle : List Char) (s : List Char) : Option (List Char × List Char) :=
  match matchRepoPat middle s with
  | none => none
  | some rest =>
    match rest with
    | '#' :: r2 =>
      match takeDigits r2 with
      | ([], _) => none
      | (ds, r3) => some (ds, r3)
    | _ => none

/-- Continuation after at least one whitespace character has been
consumed by \s+: consume further whitespace greedily, backtracking one
character at a time exactly as Python's engine does for \s+ followed by
the rest of the pattern. -/
def afterWs (middle : List Char) : List Char → Option (List Char × List Char)
  | [] => matchTail middle []
  | c :: cs =>
      if isWsChar c then
        match afterWs middle cs with
        | some r => some r
        | none => matchTail middle (c :: cs)
      else matchTail middle (c :: cs)

/-- Attempt to match one of the two patterns at the current position:
keyword, \s+ (at least one whitespace character), then the tail. -/
def matchPatAt (middle : List Char) (s : List Char) : Option (List Char × List Char) :=
  match matchKeyword s with
  | none => none
  | some rest =>
    match rest with
    | [] => none
    | c :: cs => if isWsChar c then afterWs middle cs else none

/-- Scanning loop of re.findall: try the pattern at every position from
the left; on a match, record the captured group and resume after the
match (matches are non-overlapping).  Every successful match consumes at
least six characters and every failure advances one character, so fuel
equal to the length of the string is sufficient and the fuel never runs
out when the function is called through findallMatches. -/
def findallAux (middle : List Char) : Nat → List Char → List (List Char)
  | 0, _ => []
  | _ + 1, [] => []
  | fuel + 1, c :: cs =>
    match matchPatAt middle (c :: cs) with
    | some (cap, rest) => cap :: findallAux middle fuel rest
    | none => findallAux middle fuel cs

/-- re.findall of a pattern of the family above over a body: the list of
captured issue numbers (as character lists), leftmost first. -/
def findallMatches (middle : List Char) (s : List Char) : List (List Char) :=
  findallAux middle s.length s

/-- Embedding of get_issues_from_pr (slim_scraper.py lines 136-158).  The
body argument is pr_data.get("body", "") : a missing or null body is
none, and the function returns [] for a missing or empty body (Python:
if not body).  Otherwise it runs the two patterns in order and appends
one issue URL per capture, in match order, with no deduplication. -/
def get_issues_from_pr (body : Option String) (repo_name : String) : List String :=
  match body with
  | none => []
  | some b =>
    if b = "" then []
    else
      let bl := b.toList
      let m1 := findallMatches [] bl
      let m2 := findallMatches repo_name.toList bl
      (m1 ++ m2).map
        (fun ds => "https://github.com/" ++ repo_name ++ "/issues/" ++ String.mk ds)

/-! ### Rate-limited fetcher: make_request (slim_scraper.py lines 53-69;
slim.py lines 38-54 is identical)

The Python function loops forever, issuing requests.get against one URL
until the server answers 200 (return the response) or a terminal non-200
status (return None).  The embedding receives the server's successive
answers for that URL as an oracle indexed by the attempt number, together
with the value of time.time() observed at each attempt, and records the
argument of every time.sleep call.  The loop is unbounded in the source;
the embedding carries fuel, and the contract theorem shows that fuel
n + 1 is exactly enough whenever the first n answers are retryable, for
every n — the unbounded-retry policy. -/

/-- An HTTP response as far as make_request inspects it: the status code
and the X-RateLimit-Reset header when present. -/
structure HttpResponse where
  status : Nat
  rateLimitReset : Option Int
  deriving DecidableEq, Repr

/-- Statuses that make_request retries: 403 with the reset header
present, and 502/503/504. -/
def isRetryable (r : HttpResponse) : Bool :=
  (r.status == 403 && r.rateLimitReset.isSome)
    || r.status == 502 || r.status == 503 || r.status == 504

/-- Sleep duration of one retry: max 0 (reset_time - now) for a 403 with
the header, the fixed 5 seconds for a transient server error. -/
def retrySleep (now : Int) (r : HttpResponse) : Int :=
  if r.status = 403 then max 0 (r.rateLimitReset.getD 0 - now) else 5

/-- One unfolding of the while True loop of make_request.  resp i is the
server's answer to the i-th GET of the URL, nowAt i the clock at that
attempt; the result is none if the fuel runs out mid-loop, otherwise the
returned value of the Python function (some response for HTTP 200, none
for a terminal failure) paired with the list of sleep durations. -/
def makeRequestAux (resp : Nat → HttpResponse) (nowAt : Nat → Int) :
    Nat → Nat → Option (Option HttpResponse × List Int)
  | 0, _ => none
  | fuel + 1, i =>
    if (resp i).status = 200 then some (some (resp i), [])
    else if (resp i).status = 403 then
      match (resp i).rateLimitReset with
      | some t =>
          (makeRequestAux resp nowAt fuel (i + 1)).map
            (fun p => (p.1, max 0 (t - nowAt i) :: p.2))
      | none => some (none, [])
    else if (resp i).status = 502 ∨ (resp i).status = 503 ∨ (resp i).status = 504 then
      (makeRequestAux resp nowAt fuel (i + 1)).map
        (fun p => (p.1, (5 : Int) :: p.2))
    else some (none, [])

/-- make_request, started at the first attempt. -/
def make_request (resp : Nat → HttpResponse) (nowAt : Nat → Int) (fuel : Nat) :
    Option (Option HttpResponse × List Int) :=
  makeRequestAux resp nowAt fuel 0

/-- The sleep durations the retry policy prescribes for attempts
i, i+1, ..., i+n-1. -/
def sleepsSpec (resp : Nat → HttpResponse) (nowAt : Nat → Int) (i : Nat) : Nat → List Int
  | 0 => []
  | n + 1 => retrySleep (nowAt i) (resp i) :: sleepsSpec resp nowAt (i + 1) n

/-! ### Paginated collector: get_mit_repos

slim_scraper.py lines 71-84 accumulate the items of successive pages and
break out of the loop on the first failed fetch, returning the repos
accumulated so far.  slim/slim.py lines 56-67 have the same loop but
return the empty list ([]) on the first failed fetch, discarding the
accumulator.  The page oracle maps a page number to some items (a
successful fetch whose payload carries that item list) or none (a failed
fetch, i.e. make_request returned None). -/

/-- Loop of slim_scraper.py's get_mit_repos over pages start, start+1,
..., for count pages, with accumulator acc. -/
def collectPages {α : Type} (fetch : Nat → Option (List α)) :
    Nat → Nat → List α → List α
  | _, 0, acc => acc
  | start, count + 1, acc =>
    match fetch start with
    | some items => collectPages fetch (start + 1) count (acc ++ items)
    | none => acc

/-- get_mit_repos of slim_scraper.py: pages 1..pages, stop on first
failure keeping the accumulator. -/
def get_mit_repos {α : Type} (fetch : Nat → Option (List α)) (pages : Nat) : List α :=
  collectPages fetch 1 pages []

/-- Loop of slim/slim.py's get_mit_repos: identical except that a failed
fetch returns [] outright. -/
def collectPagesSlim {α : Type} (fetch : Nat → Option (List α)) :
    Nat → Nat → List α → List α
  | _, 0, acc => acc
  | start, count + 1, acc =>
    match fetch start with
    | some items => collectPagesSlim fetch (start + 1) count (acc ++ items)
    | none => []

/-- get_mit_repos of slim/slim.py. -/
def get_mit_repos_slim {α : Type} (fetch : Nat → Option (List α)) (pages : Nat) : List α :=
  collectPagesSlim fetch 1 pages []

/-- The successful prefix of the page sequence: the item lists of pages
start, start+1, ... up to the first failed page or the page budget,
whichever comes first. -/
def successPages {α : Type} (fetch : Nat → Option (List α)) :
    Nat → Nat → List (List α)
  | _, 0 => []
  | start, count + 1 =>
    match fetch start with
    | some items => items :: successPages fetch (start + 1) count
    | none => []

/-! ### Persistence layer and the PR-driven crawl (slim_scraper.py)

The fixed_issues table (created in create_db, lines 35-51) has
issue_url TEXT PRIMARY KEY; populate_db_from_prs inserts with
INSERT OR IGNORE, so a row whose key is already present is silently
dropped and cursor.rowcount is 0.  The table is embedded as a list of
rows and INSERT OR IGNORE as insert-if-key-absent. -/

/-- One row of the fixed_issues table. -/
structure Row where
  issue_url : String
  repo_name : String
  pull_request_url : String
  languages : String
  before_code_url : Option String
  after_code_url : Option String
  affected_files : String
  deriving DecidableEq, Repr

/-- INSERT OR IGNORE INTO fixed_issues on a table whose primary key is
issue_url: if a row with the same key exists the statement is a no-op
and rowcount is 0 (second component false); otherwise the row is added
and rowcount is 1 (second component true). -/
def insert_or_ignore (db : List Row) (r : Row) : List Row × Bool :=
  if db.any (fun x => x.issue_url == r.issue_url) then (db, false)
  else (db ++ [r], true)

/-- Outcome of one cursor.execute of the insert, as the surrounding code
observes it: a new row (rowcount 1), an ignored duplicate (rowcount 0),
or a raised sqlite3.Error. -/
inductive InsertResult where
  | inserted
  | ignored
  | errored
  deriving DecidableEq, Repr

/-- Observable actions of the crawl, in program order. -/
inductive Event where
  | langQuery (repo : String)
  | prFetch (repo : String)
  | insertAttempt (repo : String) (issue_url : String) (result : InsertResult)
  | commit
  | saveProgress (names : List String)
  deriving DecidableEq, Repr

/-- A merged pull request as populate_db_from_prs reads it: html_url,
number, body, and the base/head commit SHAs (none when missing from the
payload). -/
structure PR where
  html_url : String
  number : Nat
  body : Option String
  base_sha : Option String
  head_sha : Option String
  deriving DecidableEq, Repr

/-- The network and storage environment of one run of slim_scraper.py:
langResp repo is the key list of the language endpoint's payload (none
when make_request returned None); mergedPRs repo is the list returned by
get_merged_prs; filesResp url is the filename list of the payload at a
files URL (none when the request failed); storageFails issue_url says
whether cursor.execute raises sqlite3.Error for that insert. -/
structure Api where
  langResp : String → Option (List String)
  mergedPRs : String → List PR
  filesResp : String → Option (List String)
  storageFails : String → Bool

/-- A repository dict as the driver reads it (only full_name is used). -/
structure Repo where
  full_name : String
  deriving DecidableEq, Repr

/-- get_languages (slim_scraper.py lines 86-89):
json.dumps(list(response.json().keys())) on success, "[]" on a failed
request. -/
def get_languages (api : Api) (repo_name : String) : String :=
  match api.langResp repo_name with
  | some keys => jsonList keys
  | none => "[]"

/-- URL flipping of get_affected_files (lines 94-102): an html URL
containing "github.com" is rebuilt into the API files URL from its
parts; anything else gets "/files" appended.  Python indexes
parts[-4]/parts[-3]/parts[-1], which exist for every PR html_url the
GitHub API produces; getD keeps the embedding total. -/
def filesUrlOf (pr_url : String) : String :=
  if containsSub ("github.com".toList) pr_url.toList then
    let parts := (pr_url.splitOn "/").reverse
    let owner := parts.getD 3 ""
    let repo := parts.getD 2 ""
    let pr_number := parts.getD 0 ""
    "https://api.github.com/repos/" ++ owner ++ "/" ++ repo ++ "/pulls/"
      ++ pr_number
  else pr_url ++ "/files"

/-- get_affected_files (slim_scraper.py lines 91-107): "[]" for a falsy
pr_url, for a failed request, and for an empty payload; otherwise the
serialized filename list. -/
def get_affected_files (api : Api) (pr_url : String) : String :=
  if pr_url = "" then "[]"
  else
    match api.filesResp (filesUrlOf pr_url) with
    | some files => if files.isEmpty then "[]" else jsonList files
    | none => "[]"

/-- The row populate_db_from_prs builds for one linked issue of one PR
(lines 201-206). -/
def mkRow (repo_name pr_url languages : String) (before after : Option String)
    (affected : String) (issue_url : String) : Row :=
  { issue_url := issue_url, repo_name := repo_name, pull_request_url := pr_url,
    languages := languages, before_code_url := before, after_code_url := after,
    affected_files := affected }

/-- The inner loop over linked_issues (lines 199-211): each issue is
inserted with INSERT OR IGNORE inside try/except sqlite3.Error; an error
is logged and the loop continues; added counts rows with rowcount > 0. -/
def insertIssues (api : Api) (repo_name : String) (row : String → Row) :
    List String → List Row → Nat → List Row × Nat × List Event
  | [], db, added => (db, added, [])
  | u :: rest, db, added =>
    if api.storageFails u then
      let t := insertIssues api repo_name row rest db added
      (t.1, t.2.1, Event.insertAttempt repo_name u InsertResult.errored :: t.2.2)
    else
      let ok := (insert_or_ignore db (row u)).2
      let t := insertIssues api repo_name row rest (insert_or_ignore db (row u)).1
        (if ok then added + 1 else added)
      (t.1, t.2.1,
        Event.insertAttempt repo_name u
          (if ok then InsertResult.inserted else InsertResult.ignored) :: t.2.2)

/-- The before-code URL of a PR (line 192): built from the base SHA when
present, null otherwise. -/
def beforeUrl (repo_name : String) (pr : PR) : Option String :=
  pr.base_sha.map (fun sha => "https://github.com/" ++ repo_name ++ "/commit/" ++ sha)

/-- The after-code URL of a PR (line 193): built from the head SHA when
present, null otherwise. -/
def afterUrl (repo_name : String) (pr : PR) : Option String :=
  pr.head_sha.map (fun sha => "https://github.com/" ++ repo_name ++ "/commit/" ++ sha)

/-- The row template a given PR produces for each of its linked
issues. -/
def prRow (api : Api) (repo_name languages : String) (pr : PR) : String → Row :=
  mkRow repo_name pr.html_url languages (beforeUrl repo_name pr)
    (afterUrl repo_name pr) (get_affected_files api pr.html_url)

/-- Processing of one PR (lines 182-219): extract the linked issues; if
there are any, derive the before/after commit URLs from the base/head
SHAs (null when missing), fetch the affected files, and insert each
linked issue.  After the PR — whether or not it had linked issues — the
code commits when added_for_repo is a positive multiple of 10. -/
def processPR (api : Api) (repo_name languages : String) (db : List Row)
    (added : Nat) (pr : PR) : List Row × Nat × List Event :=
  let linked := get_issues_from_pr pr.body repo_name
  let t :=
    if linked.isEmpty then (db, added, ([] : List Event))
    else
      insertIssues api repo_name (prRow api repo_name languages pr)
        linked db added
  (t.1, t.2.1,
    t.2.2 ++ (if 0 < t.2.1 ∧ t.2.1 % 10 = 0 then [Event.commit] else []))

/-- The loop over the PRs of one repository. -/
def processPRs (api : Api) (repo_name languages : String) :
    List Row → Nat → List PR → List Row × Nat × List Event
  | db, added, [] => (db, added, [])
  | db, added, pr :: rest =>
    let t1 := processPR api repo_name languages db added pr
    let t2 := processPRs api repo_name languages t1.1 t1.2.1 rest
    (t2.1, t2.2.1, t1.2.2 ++ t2.2.2)

/-- Processing of one repository inside populate_db_from_prs (lines
165-223): get_languages once, get_merged_prs once; with no PRs the code
continues to the next repository without committing; otherwise it
processes every PR and ends with an unconditional commit. -/
def processRepo (api : Api) (db : List Row) (repo_name : String) :
    List Row × Nat × List Event :=
  let languages := get_languages api repo_name
  let prs := api.mergedPRs repo_name
  if prs.isEmpty then
    (db, 0, [Event.langQuery repo_name, Event.prFetch repo_name])
  else
    let t := processPRs api repo_name languages db 0 prs
    (t.1, t.2.1,
      Event.langQuery repo_name :: Event.prFetch repo_name
        :: (t.2.2 ++ [Event.commit]))

/-- populate_db_from_prs (lines 160-226) over a repository list; returns
the table, total_added, and the event trace. -/
def populate_db_from_prs (api : Api) :
    List Row → List Repo → List Row × Nat × List Event
  | db, [] => (db, 0, [])
  | db, r :: rest =>
    let t1 := processRepo api db r.full_name
    let t2 := populate_db_from_prs api t1.1 rest
    (t2.1, t1.2.1 + t2.2.1, t1.2.2 ++ t2.2.2)

/-- Result of a whole run of the driver. -/
structure RunResult where
  db : List Row
  total : Nat
  processed : List String
  events : List Event
  deriving Repr

/-- The driver loop of the __main__ block (lines 288-297): each
remaining repository is processed by populate_db_from_prs([repo]), its
full_name is appended to processed_repo_names and save_progress writes
the whole list, before the next repository is touched. -/
def mainLoop (api : Api) :
    List Row → List String → List Repo → RunResult
  | db, processed, [] =>
    { db := db, total := 0, processed := processed, events := [] }
  | db, processed, repo :: rest =>
    let t := populate_db_from_prs api db [repo]
    let res := mainLoop api t.1 (processed ++ [repo.full_name]) rest
    { db := res.db, total := t.2.1 + res.total, processed := res.processed,
      events := t.2.2
        ++ Event.saveProgress (processed ++ [repo.full_name]) :: res.events }

/-- The resume logic of __main__ (lines 281-297): processed_repo_names
is load_progress()'s list, repos_to_process filters out every candidate
whose full_name is already in it, and the loop runs over the filtered
list. -/
def main_run (api : Api) (db : List Row) (processed : List String)
    (repos : List Repo) : RunResult :=
  let repos_to_process := repos.filter (fun r => !(processed.contains r.full_name))
  mainLoop api db processed repos_to_process

/-! ### Trace observers (specification side) -/

/-- The repository a trace event concerns, when it concerns one. -/
def eventRepo : Event → Option String
  | Event.langQuery r => some r
  | Event.prFetch r => some r
  | Event.insertAttempt r _ _ => some r
  | Event.commit => none
  | Event.saveProgress _ => none

/-- Whether an event processes data of repository X (a PR fetch, a
language query, or an issue insert for X). -/
def touches (X : String) (e : Event) : Bool :=
  eventRepo e == some X

/-- The successive saved progress lists of a trace. -/
def savesOf : List Event → List (List String)
  | [] => []
  | Event.saveProgress ns :: rest => ns :: savesOf rest
  | _ :: rest => savesOf rest

/-- Whether an event is a language query for X. -/
def isLangQuery (X : String) : Event → Bool
  | Event.langQuery r => r == X
  | _ => false

/-- Whether an event is a commit. -/
def isCommit : Event → Bool
  | Event.commit => true
  | _ => false

/-- Whether an event is a successful insert. -/
def isInserted : Event → Bool
  | Event.insertAttempt _ _ InsertResult.inserted => true
  | _ => false

/-- The issue URLs of the insert attempts of a trace, in order,
including attempts that were ignored or raised. -/
def attemptEvents : List Event → List String
  | [] => []
  | Event.insertAttempt _ u _ :: rest => u :: attemptEvents rest
  | _ :: rest => attemptEvents rest

/-- Successive values of processed_repo_names that the claimed resume
protocol persists: starting from processed, one save per repository,
each appending that repository's name. -/
def prefixesFrom (processed : List String) : List String → List (List String)
  | [] => []
  | n :: rest => (processed ++ [n]) :: prefixesFrom (processed ++ [n]) rest

/-- Whether the trace processes repository X again after a progress save
whose list already contains X. -/
def retriedAfterSave (X : String) : List Event → Bool
  | [] => false
  | Event.saveProgress ns :: rest =>
      (ns.contains X && rest.any (touches X)) || retriedAfterSave X rest
  | _ :: rest => retriedAfterSave X rest

/-- The insert attempts one repository must see according to the
processing loop: for every merged PR in order, all of its linked issues
(a PR with no linked issues contributes nothing).  This depends only on
the PR list oracle and the PR bodies — never on the storage oracle or
the table state. -/
def expectedAttemptsRepo (mergedPRs : String → List PR) (name : String) :
    List String :=
  ((mergedPRs name).map (fun pr => get_issues_from_pr pr.body name)).flatten

/-- The insert attempts a whole populate_db_from_prs run must see. -/
def expectedAttempts (mergedPRs : String → List PR) : List Repo → List String
  | [] => []
  | r :: rest =>
      expectedAttemptsRepo mergedPRs r.full_name ++ expectedAttempts mergedPRs rest

/-! ### The issue-driven variant: populate_db (slim/slim.py lines 111-132)

slim.py walks closed issues instead of merged PRs.  For each non-PR
issue with a cross-referenced pull request it fetches the before/after
commit URLs, the repository languages (inside the per-issue loop — there
is no per-repository caching in this file), and the affected files, and
then executes the same INSERT OR IGNORE — with no try/except around it,
so a sqlite3.Error propagates out of populate_db. -/

/-- A closed issue as populate_db reads it: number, html_url, and
whether the payload has a pull_request key (such issues are skipped). -/
structure SlimIssue where
  number : Nat
  html_url : String
  has_pull_request : Bool
  deriving DecidableEq, Repr

/-- The fields of a pull-request payload that get_code_before_after
reads. -/
structure PrPayload where
  base_sha : Option String
  head_sha : Option String
  base_repo_full_name : Option String
  deriving DecidableEq, Repr

/-- Environment of slim.py's populate_db: issuesResp repo is
get_issues's result ([] on a failed request); timelinePR repo n is the
pull-request html URL get_pull_request_from_issue finds in issue n's
timeline (none when there is none or the request failed); prPayload url
is the payload at a PR API URL; filesResp url the filename list at a
files URL; storageFails as for the other variant. -/
structure SlimApi where
  issuesResp : String → List SlimIssue
  timelinePR : String → Nat → Option String
  langResp : String → Option (List String)
  prPayload : String → Option PrPayload
  filesResp : String → Option (List String)
  storageFails : String → Bool

/-- get_languages (slim.py lines 84-87), identical to the other
variant's. -/
def slim_get_languages (api : SlimApi) (repo_name : String) : String :=
  match api.langResp repo_name with
  | some keys => jsonList keys
  | none => "[]"

/-- get_code_before_after (slim.py lines 89-102): rewrite the html URL
into the API URL, read base/head SHAs and the base repository name from
the payload, and degrade to (None, None) when anything is missing. -/
def slim_get_code_before_after (api : SlimApi) (pr_url : String) :
    Option String × Option String :=
  if pr_url = "" then (none, none)
  else
    let pr_api_url :=
      (pr_url.replace "github.com" "api.github.com/repos").replace "/pull/" "/pulls/"
    match api.prPayload pr_api_url with
    | none => (none, none)
    | some p =>
      match p.base_sha, p.head_sha, p.base_repo_full_name with
      | some b, some h, some rn =>
          (some ("https://github.com/" ++ rn ++ "/commit/" ++ b),
           some ("https://github.com/" ++ rn ++ "/commit/" ++ h))
      | _, _, _ => (none, none)

/-- get_affected_files (slim.py lines 104-109): serialized filename list
on success, "[]" on a failed request (no emptiness test in this
variant). -/
def slim_get_affected_files (api : SlimApi) (pr_url : String) : String :=
  if pr_url = "" then "[]"
  else
    let pr_api_url := (pr_url.replace "github.com" "api.github.com/repos") ++ "/files"
    match api.filesResp pr_api_url with
    | some files => jsonList files
    | none => "[]"

/-- Processing of one issue inside populate_db (lines 117-130).  The
first component is Except.error issue_url when the insert raised (the
exception that propagates), otherwise the updated table. -/
def slim_processIssue (api : SlimApi) (repo_name : String) (db : List Row)
    (issue : SlimIssue) : Except String (List Row) × List Event :=
  if issue.has_pull_request then (Except.ok db, [])
  else
    match api.timelinePR repo_name issue.number with
    | none => (Except.ok db, [])
    | some pr_url =>
      let ba := slim_get_code_before_after api pr_url
      let languages := slim_get_languages api repo_name
      let affected := slim_get_affected_files api pr_url
      if api.storageFails issue.html_url then
        (Except.error issue.html_url,
         [Event.langQuery repo_name,
          Event.insertAttempt repo_name issue.html_url InsertResult.errored])
      else
        let p := insert_or_ignore db
          (mkRow repo_name pr_url languages ba.1 ba.2 affected issue.html_url)
        (Except.ok p.1,
         [Event.langQuery repo_name,
          Event.insertAttempt repo_name issue.html_url
            (if p.2 then InsertResult.inserted else InsertResult.ignored)])

/-- The loop over one repository's issues; an exception aborts the loop,
so later issues are not attempted. -/
def slim_processIssues (api : SlimApi) (repo_name : String) :
    List Row → List SlimIssue → Except String (List Row) × List Event
  | db, [] => (Except.ok db, [])
  | db, issue :: rest =>
    match slim_processIssue api repo_name db issue with
    | (Except.error e, evs) => (Except.error e, evs)
    | (Except.ok db1, evs) =>
      let (r, evs2) := slim_processIssues api repo_name db1 rest
      (r, evs ++ evs2)

/-- populate_db (slim.py lines 111-132): per repository, fetch the
closed issues, process each, and commit; an uncaught sqlite3.Error
propagates out of the whole function. -/
def slim_populate_db (api : SlimApi) :
    List Row → List Repo → Except String (List Row) × List Event
  | db, [] => (Except.ok db, [])
  | db, r :: rest =>
    match slim_processIssues api r.full_name db (api.issuesResp r.full_name) with
    | (Except.error e, evs) => (Except.error e, evs)
    | (Except.ok db1, evs) =>
      let (res, evs2) := slim_populate_db api db1 rest
      (res, evs ++ Event.commit :: evs2)

/-- Whether a populate_db run ended in a propagated storage error. -/
def slimAborted : Except String (List Row) → Bool
  | Except.error _ => true
  | Except.ok _ => false

/-- The running count of added rows after each successive PR of a
repository (the value of added_for_repo that the per-PR commit test
inspects). -/
def prAddedCounts (api : Api) (repo_name languages : String) :
    List Row → Nat → List PR → List Nat
  | _, _, [] => []
  | db, added, pr :: rest =>
    let t := processPR api repo_name languages db added pr
    t.2.1 :: prAddedCounts api repo_name languages t.1 t.2.1 rest

/-! ### Concrete fixtures for witnesses and counterexamples -/

/-- An environment in which every repository has no merged PRs and every
request fails. -/
def api0 : Api :=
  { langResp := fun _ => none, mergedPRs := fun _ => [],
    filesResp := fun _ => none, storageFails := fun _ => false }

/-- A PR whose body links one issue and whose payload is maximally
partial: no base/head SHA, and the files request will fail. -/
def prPD : PR :=
  { html_url := "https://github.com/o/r/pull/1", number := 1,
    body := some "fixes #5", base_sha := none, head_sha := none }

/-- A PR whose body links no issues. -/
def prNoLink : PR :=
  { html_url := "https://github.com/o/r/pull/2", number := 2,
    body := some "tidy the readme", base_sha := none, head_sha := none }

/-- Environment for the partial-data and language witnesses: one
repository o/r with the two PRs above, failed language and files
requests, no storage errors. -/
def apiPD : Api :=
  { langResp := fun _ => none,
    mergedPRs := fun n => if n = "o/r" then [prPD, prNoLink] else [],
    filesResp := fun _ => none, storageFails := fun _ => false }

/-- A PR whose body links eleven distinct issues. -/
def pr11 : PR :=
  { html_url := "https://github.com/o/r/pull/3", number := 3,
    body := some ("fixes #1 fixes #2 fixes #3 fixes #4 fixes #5 fixes #6 "
      ++ "fixes #7 fixes #8 fixes #9 fixes #10 fixes #11"),
    base_sha := some "b", head_sha := some "h" }

/-- Environment for the commit-batching counterexample: one repository
whose only PR inserts eleven rows. -/
def api11 : Api :=
  { langResp := fun _ => some ["Python"],
    mergedPRs := fun n => if n = "o/r" then [pr11] else [],
    filesResp := fun _ => some ["a.py"], storageFails := fun _ => false }

/-- A concrete row for the upsert witness. -/
def row0 : Row :=
  { issue_url := "https://github.com/o/r/issues/5", repo_name := "o/r",
    pull_request_url := "https://github.com/o/r/pull/1",
    languages := "[\"Python\"]", before_code_url := none,
    after_code_url := none, affected_files := "[]" }

/-- Page oracle for the collector counterexample: page 1 succeeds with
one item, page 2 fails. -/
def fetchCex : Nat → Option (List String) :=
  fun p => if p = 1 then some ["r1"] else none

/-- Page oracle with an empty middle page: pages 1 and 3 have one item
each, page 2 succeeds with zero items. -/
def fetchEmptyMid : Nat → Option (List String) :=
  fun p => if p = 1 then some ["a"] else if p = 2 then some [] else
    if p = 3 then some ["b"] else none

/-- Response sequence for the fetcher witness: a rate-limited 403, a
503, then a 200. -/
def respW : Nat → HttpResponse :=
  fun i =>
    if i = 0 then { status := 403, rateLimitReset := some 100 }
    else if i = 1 then { status := 503, rateLimitReset := none }
    else { status := 200, rateLimitReset := none }

/-- Clock for the fetcher witness: frozen at 90. -/
def nowW : Nat → Int := fun _ => 90

/-- Two ordinary closed issues of repository o/r. -/
def issueA : SlimIssue :=
  { number := 1, html_url := "https://github.com/o/r/issues/1",
    has_pull_request := false }

/-- Second issue of the slim fixtures. -/
def issueB : SlimIssue :=
  { number := 2, html_url := "https://github.com/o/r/issues/2",
    has_pull_request := false }

/-- Environment for the language-cache counterexample on slim.py: one
repository with two linkable issues and no storage errors. -/
def apiS6 : SlimApi :=
  { issuesResp := fun n => if n = "o/r" then [issueA, issueB] else [],
    timelinePR := fun _ n =>
      if n = 1 then some "https://github.com/o/r/pull/1"
      else some "https://github.com/o/r/pull/2",
    langResp := fun _ => some ["Python"],
    prPayload := fun _ => none, filesResp := fun _ => none,
    storageFails := fun _ => false }

/-- Environment for the storage-error counterexample on slim.py: as
apiS6, but the insert of the first issue raises sqlite3.Error. -/
def apiS8 : SlimApi :=
  { issuesResp := fun n => if n = "o/r" then [issueA, issueB] else [],
    timelinePR := fun _ n =>
      if n = 1 then some "https://github.com/o/r/pull/1"
      else some "https://github.com/o/r/pull/2",
    langResp := fun _ => some ["Python"],
    prPayload := fun _ => none, filesResp := fun _ => none,
    storageFails := fun u => u == "https://github.com/o/r/issues/1" }

/-- One repository entry for the counterexample runs. -/
def repoOR : Repo := { full_name := "o/r" }

/-- The row the apiPD environment stores for prPD's single linked
issue. -/
def row5 : Row :=
  mkRow "o/r" "https://github.com/o/r/pull/1" "[]" none none "[]"
    "https://github.com/o/r/issues/5"

/-! ## Theorems -/

/-! ### Collector lemmas -/

/-- The scraper collector accumulates exactly the successful page
prefix. -/
theorem collectPages_eq_join {α : Type} (fetch : Nat → Option (List α)) :
    ∀ (count start : Nat) (acc : List α),
      collectPages fetch start count acc
        = acc ++ (successPages fetch start count).flatten := by
  intro count
  induction count with
  | zero => intro start acc; simp [collectPages, successPages]
  | succ n ih =>
    intro start acc
    cases h : fetch start with
    | some items => simp [collectPages, successPages, h, ih]
    | none => simp [collectPages, successPages, h]

/-- The slim collector returns the accumulated successful prefix only
when every page in range succeeds, and the empty list otherwise. -/
theorem collectPagesSlim_eq {α : Type} (fetch : Nat → Option (List α)) :
    ∀ (count start : Nat) (acc : List α),
      collectPagesSlim fetch start count acc
        = if (List.range' start count).all (fun p => (fetch p).isSome)
          then acc ++ (successPages fetch start count).flatten else [] := by
  intro count
  induction count with
  | zero => intro start acc; simp [collectPagesSlim, successPages, List.range']
  | succ n ih =>
    intro start acc
    cases h : fetch start with
    | some items =>
      simp [collectPagesSlim, successPages, List.range', h, ih]
    | none =>
      simp [collectPagesSlim, successPages, List.range', h]

/-- C3 (amended): the slim_scraper collector iterates pages 1..max_pages
in order, appends all items of every successful page (an empty page does
not stop it), and on the first fetch failure returns everything
accumulated so far; the slim/slim.py variant instead returns the empty
list on the first fetch failure, discarding the accumulated items, and
agrees with the other variant only when every page in range succeeds. -/
theorem collector_stop_conditions :
    (∀ (α : Type) (fetch : Nat → Option (List α)) (pages : Nat),
        get_mit_repos fetch pages = (successPages fetch 1 pages).flatten)
  ∧ (∀ (α : Type) (fetch : Nat → Option (List α)) (pages : Nat),
        get_mit_repos_slim fetch pages
          = if (List.range' 1 pages).all (fun p => (fetch p).isSome)
            then (successPages fetch 1 pages).flatten else [])
  ∧ get_mit_repos fetchEmptyMid 3 = ["a", "b"] := by
  refine ⟨fun α fetch pages => ?_, fun α fetch pages => ?_, by decide⟩
  · simpa using collectPages_eq_join fetch pages 1 []
  · simpa using collectPagesSlim_eq fetch pages 1 []

/-- C3 (counterexample): with page 1 delivering one item and page 2
failing, the slim/slim.py collector returns [] rather than the items
already accumulated, so the claim's universal stop condition is false of
the code. -/
theorem collector_discards_on_failure :
    get_mit_repos fetchCex 2 = ["r1"]
  ∧ get_mit_repos_slim fetchCex 2 = []
  ∧ get_mit_repos_slim fetchCex 2 ≠ get_mit_repos fetchCex 2 := by
  exact ⟨by decide, by decide, by decide⟩

/-! ### Trace bookkeeping lemmas -/

/-- savesOf distributes over append. -/
theorem savesOf_append (l1 l2 : List Event) :
    savesOf (l1 ++ l2) = savesOf l1 ++ savesOf l2 := by
  induction l1 with
  | nil => rfl
  | cons e rest ih => cases e <;> simp [savesOf, ih]

/-- attemptEvents distributes over append. -/
theorem attemptEvents_append (l1 l2 : List Event) :
    attemptEvents (l1 ++ l2) = attemptEvents l1 ++ attemptEvents l2 := by
  induction l1 with
  | nil => rfl
  | cons e rest ih => cases e <;> simp [attemptEvents, ih]

/-- A trace without saveProgress events has no saves. -/
theorem savesOf_eq_nil (l : List Event)
    (h : ∀ e ∈ l, eventRepo e = none → isCommit e = true) : savesOf l = [] := by
  induction l with
  | nil => rfl
  | cons e rest ih =>
    have hrest := fun e he => h e (List.mem_cons_of_mem _ he)
    cases e with
    | saveProgress ns =>
      have := h (Event.saveProgress ns) (List.mem_cons_self _ _) rfl
      simp [isCommit] at this
    | langQuery r => simpa [savesOf] using ih hrest
    | prFetch r => simpa [savesOf] using ih hrest
    | insertAttempt r u res => simpa [savesOf] using ih hrest
    | commit => simpa [savesOf] using ih hrest

/-! ### insertIssues lemmas -/

/-- Every event the issue loop emits is an insert attempt for the
current repository. -/
theorem insertIssues_event_shape (api : Api) (name : String) (row : String → Row) :
    ∀ (issues : List String) (db : List Row) (added : Nat),
      ∀ e ∈ (insertIssues api name row issues db added).2.2,
        ∃ u res, e = Event.insertAttempt name u res := by
  intro issues
  induction issues with
  | nil => intro db added e he; simp [insertIssues] at he
  | cons u rest ih =>
    intro db added e he
    by_cases hf : api.storageFails u = true
    · simp only [insertIssues, hf, if_true] at he
      rcases List.mem_cons.mp he with h | h
      · exact ⟨u, InsertResult.errored, h⟩
      · exact ih _ _ e h
    · simp only [insertIssues, hf, if_false] at he
      rcases List.mem_cons.mp he with h | h
      · exact ⟨u, _, h⟩
      · exact ih _ _ e h

/-- The issue loop attempts exactly the issues it is given, in order,
whatever the storage oracle and the table state are. -/
theorem insertIssues_attempts (api : Api) (name : String) (row : String → Row) :
    ∀ (issues : List String) (db : List Row) (added : Nat),
      attemptEvents (insertIssues api name row issues db added).2.2 = issues := by
  intro issues
  induction issues with
  | nil => intro db added; rfl
  | cons u rest ih =>
    intro db added
    by_cases hf : api.storageFails u = true
    · simp [insertIssues, hf, attemptEvents, ih]
    · simp [insertIssues, hf, attemptEvents, ih]

/-- The issue loop only appends rows: existing rows survive it. -/
theorem insertIssues_db_mono (api : Api) (name : String) (row : String → Row) :
    ∀ (issues : List String) (db : List Row) (added : Nat) (x : Row),
      x ∈ db → x ∈ (insertIssues api name row issues db added).1 := by
  intro issues
  induction issues with
  | nil => intro db added x hx; simpa [insertIssues] using hx
  | cons u rest ih =>
    intro db added x hx
    by_cases hf : api.storageFails u = true
    · simp only [insertIssues, hf, if_true]
      exact ih _ _ x hx
    · simp only [insertIssues, hf, if_false]
      apply ih
      unfold insert_or_ignore
      by_cases hany : db.any (fun y => y.issue_url == (row u).issue_url) = true
      · simpa [hany] using hx
      · simp only [Bool.not_eq_true] at hany
        simp [hany]
        exact Or.inl hx

/-- Every row the issue loop adds is the template row of one of its
issues. -/
theorem insertIssues_new_rows (api : Api) (name : String) (row : String → Row) :
    ∀ (issues : List String) (db : List Row) (added : Nat) (x : Row),
      x ∈ (insertIssues api name row issues db added).1 →
      x ∈ db ∨ ∃ u ∈ issues, x = row u := by
  intro issues
  induction issues with
  | nil => intro db added x hx; exact Or.inl (by simpa [insertIssues] using hx)
  | cons u rest ih =>
    intro db added x hx
    by_cases hf : api.storageFails u = true
    · simp only [insertIssues, hf, if_true] at hx
      rcases ih _ _ x hx with h | ⟨v, hv, hxv⟩
      · exact Or.inl h
      · exact Or.inr ⟨v, List.mem_cons_of_mem _ hv, hxv⟩
    · simp only [insertIssues, hf, if_false] at hx
      rcases ih _ _ x hx with h | ⟨v, hv, hxv⟩
      · unfold insert_or_ignore at h
        by_cases hany : db.any (fun y => y.issue_url == (row u).issue_url) = true
        · rw [if_pos hany] at h
          exact Or.inl h
        · rw [if_neg hany] at h
          rcases List.mem_append.mp h with h | h
          · exact Or.inl h
          · exact Or.inr ⟨u, List.mem_cons_self _ _, by simpa using h⟩
      · exact Or.inr ⟨v, List.mem_cons_of_mem _ hv, hxv⟩

/-- If an issue's key is absent from the table, its insert does not
raise, and it is among the issues of the loop, then its template row is
in the resulting table. -/
theorem insertIssues_fresh_insert (api : Api) (name : String) (row : String → Row)
    (hrow : ∀ v, (row v).issue_url = v) :
    ∀ (issues : List String) (db : List Row) (added : Nat) (u : String),
      u ∈ issues → api.storageFails u = false →
      (∀ x ∈ db, x.issue_url ≠ u) →
      row u ∈ (insertIssues api name row issues db added).1 := by
  intro issues
  induction issues with
  | nil => intro db added u hu; exact absurd hu (List.not_mem_nil u)
  | cons v rest ih =>
    intro db added u hu hfail hfresh
    by_cases huv : u = v
    · subst huv
      simp only [insertIssues, hfail, Bool.false_eq_true, if_false]
      have hany : db.any (fun y => y.issue_url == (row u).issue_url) = false := by
        simp only [List.any_eq_false, beq_iff_eq]
        intro x hx
        rw [hrow u]
        exact hfresh x hx
      apply insertIssues_db_mono
      simp [insert_or_ignore, hany]
    · have hurest : u ∈ rest := by
        rcases List.mem_cons.mp hu with h | h
        · exact absurd h huv
        · exact h
      by_cases hf : api.storageFails v = true
      · simp only [insertIssues, hf, if_true]
        exact ih _ _ u hurest hfail hfresh
      · simp only [insertIssues, hf, if_false]
        apply ih _ _ u hurest hfail
        intro x hx
        unfold insert_or_ignore at hx
        by_cases hany : db.any (fun y => y.issue_url == (row v).issue_url) = true
        · rw [if_pos hany] at hx
          exact hfresh x hx
        · rw [if_neg hany] at hx
          rcases List.mem_append.mp hx with h | h
          · exact hfresh x h
          · have : x = row v := by simpa using h
            rw [this, hrow v]
            exact fun hc => huv hc.symm

/-! ### processPR lemmas -/

/-- Computation rule for a PR without linked issues. -/
theorem processPR_eq_empty (api : Api) (name langs : String) (db : List Row)
    (added : Nat) (pr : PR)
    (h : (get_issues_from_pr pr.body name).isEmpty = true) :
    processPR api name langs db added pr
      = (db, added,
         if 0 < added ∧ added % 10 = 0 then [Event.commit] else []) := by
  simp [processPR, h]

/-- Computation rule for a PR with linked issues. -/
theorem processPR_eq_nonempty (api : Api) (name langs : String) (db : List Row)
    (added : Nat) (pr : PR)
    (h : (get_issues_from_pr pr.body name).isEmpty = false) :
    processPR api name langs db added pr
      = ((insertIssues api name (prRow api name langs pr)
            (get_issues_from_pr pr.body name) db added).1,
         (insertIssues api name (prRow api name langs pr)
            (get_issues_from_pr pr.body name) db added).2.1,
         (insertIssues api name (prRow api name langs pr)
            (get_issues_from_pr pr.body name) db added).2.2
           ++ (if 0 < (insertIssues api name (prRow api name langs pr)
                  (get_issues_from_pr pr.body name) db added).2.1
                ∧ (insertIssues api name (prRow api name langs pr)
                  (get_issues_from_pr pr.body name) db added).2.1 % 10 = 0
               then [Event.commit] else [])) := by
  simp [processPR, h]

/-- Every event of one PR's processing is an insert attempt for the
current repository or a commit. -/
theorem processPR_event_shape (api : Api) (name langs : String) (db : List Row)
    (added : Nat) (pr : PR) :
    ∀ e ∈ (processPR api name langs db added pr).2.2,
      (∃ u res, e = Event.insertAttempt name u res) ∨ e = Event.commit := by
  intro e he
  by_cases hemp : (get_issues_from_pr pr.body name).isEmpty = true
  · rw [processPR_eq_empty api name langs db added pr hemp] at he
    by_cases hc : 0 < added ∧ added % 10 = 0
    · rw [if_pos hc] at he
      exact Or.inr (by simpa using he)
    · rw [if_neg hc] at he
      simp at he
  · have hemp' : (get_issues_from_pr pr.body name).isEmpty = false := by
      simpa using hemp
    rw [processPR_eq_nonempty api name langs db added pr hemp'] at he
    rcases List.mem_append.mp he with h | h
    · exact Or.inl (insertIssues_event_shape api name _ _ _ _ e h)
    · by_cases hc : 0 < (insertIssues api name (prRow api name langs pr)
            (get_issues_from_pr pr.body name) db added).2.1
          ∧ (insertIssues api name (prRow api name langs pr)
            (get_issues_from_pr pr.body name) db added).2.1 % 10 = 0
      · rw [if_pos hc] at h
        exact Or.inr (by simpa using h)
      · rw [if_neg hc] at h
        simp at h

/-- One PR's processing attempts exactly its linked issues, whatever the
storage oracle and the table state. -/
theorem processPR_attempts (api : Api) (name langs : String) (db : List Row)
    (added : Nat) (pr : PR) :
    attemptEvents (processPR api name langs db added pr).2.2
      = get_issues_from_pr pr.body name := by
  by_cases hemp : (get_issues_from_pr pr.body name).isEmpty = true
  · rw [processPR_eq_empty api name langs db added pr hemp]
    rw [List.isEmpty_iff.mp hemp]
    by_cases hc : 0 < added ∧ added % 10 = 0
    · simp [hc, attemptEvents]
    · simp [hc, attemptEvents]
  · have hemp' : (get_issues_from_pr pr.body name).isEmpty = false := by
      simpa using hemp
    rw [processPR_eq_nonempty api name langs db added pr hemp']
    simp only [attemptEvents_append, insertIssues_attempts]
    by_cases hc : 0 < (insertIssues api name (prRow api name langs pr)
          (get_issues_from_pr pr.body name) db added).2.1
        ∧ (insertIssues api name (prRow api name langs pr)
          (get_issues_from_pr pr.body name) db added).2.1 % 10 = 0
    · simp [hc, attemptEvents]
    · simp [hc, attemptEvents]

/-- One PR's processing only appends rows. -/
theorem processPR_db_mono (api : Api) (name langs : String) (db : List Row)
    (added : Nat) (pr : PR) (x : Row) (hx : x ∈ db) :
    x ∈ (processPR api name langs db added pr).1 := by
  by_cases hemp : (get_issues_from_pr pr.body name).isEmpty = true
  · rw [processPR_eq_empty api name langs db added pr hemp]
    exact hx
  · have hemp' : (get_issues_from_pr pr.body name).isEmpty = false := by
      simpa using hemp
    rw [processPR_eq_nonempty api name langs db added pr hemp']
    exact insertIssues_db_mono api name _ _ db added x hx

/-- Every row one PR's processing adds is that PR's template row for one
of its linked issues. -/
theorem processPR_new_rows (api : Api) (name langs : String) (db : List Row)
    (added : Nat) (pr : PR) (x : Row)
    (hx : x ∈ (processPR api name langs db added pr).1) :
    x ∈ db ∨ ∃ u ∈ get_issues_from_pr pr.body name,
      x = prRow api name langs pr u := by
  by_cases hemp : (get_issues_from_pr pr.body name).isEmpty = true
  · rw [processPR_eq_empty api name langs db added pr hemp] at hx
    exact Or.inl hx
  · have hemp' : (get_issues_from_pr pr.body name).isEmpty = false := by
      simpa using hemp
    rw [processPR_eq_nonempty api name langs db added pr hemp'] at hx
    exact insertIssues_new_rows api name _ _ db added x hx

/-- The commit events of one PR's processing: one exactly when the
running added count ends positive and divisible by ten, since the inner
loop emits only insert attempts. -/
theorem processPR_commit_count (api : Api) (name langs : String) (db : List Row)
    (added : Nat) (pr : PR) :
    (processPR api name langs db added pr).2.2.countP isCommit
      = if 0 < (processPR api name langs db added pr).2.1
          ∧ (processPR api name langs db added pr).2.1 % 10 = 0
        then 1 else 0 := by
  by_cases hemp : (get_issues_from_pr pr.body name).isEmpty = true
  · rw [processPR_eq_empty api name langs db added pr hemp]
    by_cases hc : 0 < added ∧ added % 10 = 0
    · simp [hc, isCommit]
    · simp [hc]
  · have hemp' : (get_issues_from_pr pr.body name).isEmpty = false := by
      simpa using hemp
    rw [processPR_eq_nonempty api name langs db added pr hemp']
    rw [List.countP_append]
    have hzero : (insertIssues api name (prRow api name langs pr)
        (get_issues_from_pr pr.body name) db added).2.2.countP isCommit = 0 := by
      rw [List.countP_eq_zero]
      intro e he
      obtain ⟨u, res, rfl⟩ := insertIssues_event_shape api name _ _ _ _ e he
      simp [isCommit]
    rw [hzero]
    by_cases hc : 0 < (insertIssues api name (prRow api name langs pr)
          (get_issues_from_pr pr.body name) db added).2.1
        ∧ (insertIssues api name (prRow api name langs pr)
          (get_issues_from_pr pr.body name) db added).2.1 % 10 = 0
    · simp [hc, isCommit]
    · simp [hc]

/-- One PR's processing emits no language query. -/
theorem processPR_lang_count (api : Api) (name langs : String) (db : List Row)
    (added : Nat) (pr : PR) (X : String) :
    (processPR api name langs db added pr).2.2.countP (isLangQuery X) = 0 := by
  rw [List.countP_eq_zero]
  intro e he
  rcases processPR_event_shape api name langs db added pr e he with ⟨u, res, rfl⟩ | rfl
  · simp [isLangQuery]
  · simp [isLangQuery]

/-! ### processPRs lemmas -/

/-- Computation rule for the PR loop. -/
theorem processPRs_cons (api : Api) (name langs : String) (db : List Row)
    (added : Nat) (pr : PR) (rest : List PR) :
    processPRs api name langs db added (pr :: rest)
      = ((processPRs api name langs (processPR api name langs db added pr).1
            (processPR api name langs db added pr).2.1 rest).1,
         (processPRs api name langs (processPR api name langs db added pr).1
            (processPR api name langs db added pr).2.1 rest).2.1,
         (processPR api name langs db added pr).2.2
           ++ (processPRs api name langs (processPR api name langs db added pr).1
                (processPR api name langs db added pr).2.1 rest).2.2) := rfl

/-- Every event of the PR loop is an insert attempt for the current
repository or a commit. -/
theorem processPRs_event_shape (api : Api) (name langs : String) :
    ∀ (prs : List PR) (db : List Row) (added : Nat),
      ∀ e ∈ (processPRs api name langs db added prs).2.2,
        (∃ u res, e = Event.insertAttempt name u res) ∨ e = Event.commit := by
  intro prs
  induction prs with
  | nil => intro db added e he; simp [processPRs] at he
  | cons pr rest ih =>
    intro db added e he
    rw [processPRs_cons] at he
    rcases List.mem_append.mp he with h | h
    · exact processPR_event_shape api name langs db added pr e h
    · exact ih _ _ e h

/-- The PR loop attempts exactly the linked issues of its PRs, in
order. -/
theorem processPRs_attempts (api : Api) (name langs : String) :
    ∀ (prs : List PR) (db : List Row) (added : Nat),
      attemptEvents (processPRs api name langs db added prs).2.2
        = (prs.map (fun pr => get_issues_from_pr pr.body name)).flatten := by
  intro prs
  induction prs with
  | nil => intro db added; rfl
  | cons pr rest ih =>
    intro db added
    rw [processPRs_cons, attemptEvents_append, processPR_attempts, ih]
    simp

/-- The PR loop only appends rows. -/
theorem processPRs_db_mono (api : Api) (name langs : String) :
    ∀ (prs : List PR) (db : List Row) (added : Nat) (x : Row),
      x ∈ db → x ∈ (processPRs api name langs db added prs).1 := by
  intro prs
  induction prs with
  | nil => intro db added x hx; exact hx
  | cons pr rest ih =>
    intro db added x hx
    rw [processPRs_cons]
    exact ih _ _ x (processPR_db_mono api name langs db added pr x hx)

/-- Every row the PR loop adds belongs to the current repository and
carries the languages string computed for it. -/
theorem processPRs_new_rows (api : Api) (name langs : String) :
    ∀ (prs : List PR) (db : List Row) (added : Nat) (x : Row),
      x ∈ (processPRs api name langs db added prs).1 →
      x ∈ db ∨ (x.repo_name = name ∧ x.languages = langs) := by
  intro prs
  induction prs with
  | nil => intro db added x hx; exact Or.inl hx
  | cons pr rest ih =>
    intro db added x hx
    rw [processPRs_cons] at hx
    rcases ih _ _ x hx with h | h
    · rcases processPR_new_rows api name langs db added pr x h with h2 | ⟨u, _, rfl⟩
      · exact Or.inl h2
      · exact Or.inr (by simp [prRow, mkRow])
    · exact Or.inr h

/-- The commit events of the PR loop: one per PR at whose boundary the
running added count is a positive multiple of ten. -/
theorem processPRs_commit_count (api : Api) (name langs : String) :
    ∀ (prs : List PR) (db : List Row) (added : Nat),
      (processPRs api name langs db added prs).2.2.countP isCommit
        = (prAddedCounts api name langs db added prs).countP
            (fun a => decide (0 < a ∧ a % 10 = 0)) := by
  intro prs
  induction prs with
  | nil => intro db added; rfl
  | cons pr rest ih =>
    intro db added
    rw [processPRs_cons, List.countP_append, processPR_commit_count, ih]
    show _ = List.countP _ ((processPR api name langs db added pr).2.1
      :: prAddedCounts api name langs (processPR api name langs db added pr).1
          (processPR api name langs db added pr).2.1 rest)
    rw [List.countP_cons]
    by_cases hc : 0 < (processPR api name langs db added pr).2.1
        ∧ (processPR api name langs db added pr).2.1 % 10 = 0
    · simp [hc, Nat.add_comm]
    · simp [hc]

/-- The PR loop emits no language query. -/
theorem processPRs_lang_count (api : Api) (name langs : String)
    (prs : List PR) (db : List Row) (added : Nat) (X : String) :
    (processPRs api name langs db added prs).2.2.countP (isLangQuery X) = 0 := by
  rw [List.countP_eq_zero]
  intro e he
  rcases processPRs_event_shape api name langs prs db added e he
      with ⟨u, res, rfl⟩ | rfl
  · simp [isLangQuery]
  · simp [isLangQuery]

/-! ### processRepo and populate_db_from_prs lemmas -/

/-- Computation rule for a repository without merged PRs. -/
theorem processRepo_eq_empty (api : Api) (db : List Row) (name : String)
    (h : (api.mergedPRs name).isEmpty = true) :
    processRepo api db name
      = (db, 0, [Event.langQuery name, Event.prFetch name]) := by
  simp [processRepo, h]

/-- Computation rule for a repository with merged PRs. -/
theorem processRepo_eq_nonempty (api : Api) (db : List Row) (name : String)
    (h : (api.mergedPRs name).isEmpty = false) :
    processRepo api db name
      = ((processPRs api name (get_languages api name) db 0 (api.mergedPRs name)).1,
         (processPRs api name (get_languages api name) db 0 (api.mergedPRs name)).2.1,
         Event.langQuery name :: Event.prFetch name
           :: ((processPRs api name (get_languages api name) db 0
                (api.mergedPRs name)).2.2 ++ [Event.commit])) := by
  simp [processRepo, h]

/-- Every event of one repository's processing concerns that repository
or is a commit. -/
theorem processRepo_event_shape (api : Api) (db : List Row) (name : String) :
    ∀ e ∈ (processRepo api db name).2.2,
      eventRepo e = some name ∨ e = Event.commit := by
  intro e he
  by_cases hemp : (api.mergedPRs name).isEmpty = true
  · rw [processRepo_eq_empty api db name hemp] at he
    rcases List.mem_cons.mp he with rfl | he2
    · exact Or.inl (by simp [eventRepo])
    · rcases List.mem_cons.mp he2 with rfl | he3
      · exact Or.inl (by simp [eventRepo])
      · simp at he3
  · have hemp' : (api.mergedPRs name).isEmpty = false := by simpa using hemp
    rw [processRepo_eq_nonempty api db name hemp'] at he
    rcases List.mem_cons.mp he with rfl | he2
    · exact Or.inl (by simp [eventRepo])
    rcases List.mem_cons.mp he2 with rfl | he3
    · exact Or.inl (by simp [eventRepo])
    rcases List.mem_append.mp he3 with h | h
    · rcases processPRs_event_shape api name _ _ db 0 e h with ⟨u, res, rfl⟩ | rfl
      · exact Or.inl (by simp [eventRepo])
      · exact Or.inr rfl
    · exact Or.inr (by simpa using h)

/-- One repository's processing attempts exactly the linked issues of
its merged PRs, independently of the storage oracle and the table. -/
theorem processRepo_attempts (api : Api) (db : List Row) (name : String) :
    attemptEvents (processRepo api db name).2.2
      = expectedAttemptsRepo api.mergedPRs name := by
  by_cases hemp : (api.mergedPRs name).isEmpty = true
  · rw [processRepo_eq_empty api db name hemp]
    unfold expectedAttemptsRepo
    rw [List.isEmpty_iff.mp hemp]
    rfl
  · have hemp' : (api.mergedPRs name).isEmpty = false := by simpa using hemp
    rw [processRepo_eq_nonempty api db name hemp']
    show attemptEvents (Event.langQuery name :: Event.prFetch name :: _) = _
    unfold expectedAttemptsRepo
    simp only [attemptEvents, attemptEvents_append, processPRs_attempts]
    simp [attemptEvents]

/-- One repository's processing queries the language endpoint exactly
once, for itself. -/
theorem processRepo_lang_count (api : Api) (db : List Row) (name X : String) :
    (processRepo api db name).2.2.countP (isLangQuery X)
      = if name == X then 1 else 0 := by
  by_cases hemp : (api.mergedPRs name).isEmpty = true
  · rw [processRepo_eq_empty api db name hemp]
    by_cases hx : name == X <;> simp [hx, isLangQuery, List.countP_cons]
  · have hemp' : (api.mergedPRs name).isEmpty = false := by simpa using hemp
    rw [processRepo_eq_nonempty api db name hemp']
    rw [List.countP_cons, List.countP_cons, List.countP_append,
      processPRs_lang_count]
    by_cases hx : name == X <;> simp [hx, isLangQuery, isCommit, List.countP_cons]

/-- One repository's processing only appends rows. -/
theorem processRepo_db_mono (api : Api) (db : List Row) (name : String)
    (x : Row) (hx : x ∈ db) : x ∈ (processRepo api db name).1 := by
  by_cases hemp : (api.mergedPRs name).isEmpty = true
  · rw [processRepo_eq_empty api db name hemp]; exact hx
  · have hemp' : (api.mergedPRs name).isEmpty = false := by simpa using hemp
    rw [processRepo_eq_nonempty api db name hemp']
    exact processPRs_db_mono api name _ _ db 0 x hx

/-- Every row one repository's processing adds belongs to it and reuses
the single languages string computed once for the repository. -/
theorem processRepo_new_rows (api : Api) (db : List Row) (name : String)
    (x : Row) (hx : x ∈ (processRepo api db name).1) :
    x ∈ db ∨ (x.repo_name = name ∧ x.languages = get_languages api name) := by
  by_cases hemp : (api.mergedPRs name).isEmpty = true
  · rw [processRepo_eq_empty api db name hemp] at hx
    exact Or.inl hx
  · have hemp' : (api.mergedPRs name).isEmpty = false := by simpa using hemp
    rw [processRepo_eq_nonempty api db name hemp'] at hx
    exact processPRs_new_rows api name _ _ db 0 x hx

/-- Computation rule for populate_db_from_prs on a repository cons. -/
theorem populate_cons (api : Api) (db : List Row) (r : Repo) (rest : List Repo) :
    populate_db_from_prs api db (r :: rest)
      = ((populate_db_from_prs api (processRepo api db r.full_name).1 rest).1,
         (processRepo api db r.full_name).2.1
           + (populate_db_from_prs api (processRepo api db r.full_name).1 rest).2.1,
         (processRepo api db r.full_name).2.2
           ++ (populate_db_from_prs api
                (processRepo api db r.full_name).1 rest).2.2) := rfl

/-- Every event of a populate run concerns one of its repositories or is
a commit. -/
theorem populate_event_shape (api : Api) :
    ∀ (repos : List Repo) (db : List Row),
      ∀ e ∈ (populate_db_from_prs api db repos).2.2,
        (∃ r ∈ repos, eventRepo e = some r.full_name) ∨ e = Event.commit := by
  intro repos
  induction repos with
  | nil => intro db e he; simp [populate_db_from_prs] at he
  | cons r rest ih =>
    intro db e he
    rw [populate_cons] at he
    rcases List.mem_append.mp he with h | h
    · rcases processRepo_event_shape api db r.full_name e h with h2 | h2
      · exact Or.inl ⟨r, List.mem_cons_self _ _, h2⟩
      · exact Or.inr h2
    · rcases ih _ e h with ⟨r2, hr2, h2⟩ | h2
      · exact Or.inl ⟨r2, List.mem_cons_of_mem _ hr2, h2⟩
      · exact Or.inr h2

/-- A populate run attempts exactly the expected inserts, a function of
the PR oracle alone — never of the storage oracle or the table state. -/
theorem populate_attempts (api : Api) :
    ∀ (repos : List Repo) (db : List Row),
      attemptEvents (populate_db_from_prs api db repos).2.2
        = expectedAttempts api.mergedPRs repos := by
  intro repos
  induction repos with
  | nil => intro db; rfl
  | cons r rest ih =>
    intro db
    rw [populate_cons, attemptEvents_append, processRepo_attempts, ih]
    rfl

/-- A populate run queries the language endpoint exactly once per
repository entry of its list. -/
theorem populate_lang_count (api : Api) (X : String) :
    ∀ (repos : List Repo) (db : List Row),
      (populate_db_from_prs api db repos).2.2.countP (isLangQuery X)
        = (repos.map Repo.full_name).count X := by
  intro repos
  induction repos with
  | nil => intro db; rfl
  | cons r rest ih =>
    intro db
    rw [populate_cons, List.countP_append, processRepo_lang_count, ih]
    rw [List.map_cons, List.count_cons]
    by_cases hx : r.full_name == X <;> simp [hx, Nat.add_comm]

/-- Every row a populate run adds reuses the languages string of its own
repository. -/
theorem populate_new_rows (api : Api) :
    ∀ (repos : List Repo) (db : List Row) (x : Row),
      x ∈ (populate_db_from_prs api db repos).1 →
      x ∈ db ∨ x.languages = get_languages api x.repo_name := by
  intro repos
  induction repos with
  | nil => intro db x hx; exact Or.inl hx
  | cons r rest ih =>
    intro db x hx
    rw [populate_cons] at hx
    rcases ih _ x hx with h | h
    · rcases processRepo_new_rows api db r.full_name x h with h2 | ⟨h2, h3⟩
      · exact Or.inl h2
      · exact Or.inr (by rw [h2, h3])
    · exact Or.inr h

/-! ### Fetcher contract -/

/-- One unfolding of the loop body of make_request. -/
theorem makeRequestAux_step (resp : Nat → HttpResponse) (nowAt : Nat → Int)
    (fuel i : Nat) :
    makeRequestAux resp nowAt (fuel + 1) i
      = if (resp i).status = 200 then some (some (resp i), [])
        else if (resp i).status = 403 then
          match (resp i).rateLimitReset with
          | some t =>
              (makeRequestAux resp nowAt fuel (i + 1)).map
                (fun p => (p.1, max 0 (t - nowAt i) :: p.2))
          | none => some (none, [])
        else if (resp i).status = 502 ∨ (resp i).status = 503
            ∨ (resp i).status = 504 then
          (makeRequestAux resp nowAt fuel (i + 1)).map
            (fun p => (p.1, (5 : Int) :: p.2))
        else some (none, []) := rfl

/-- Unfolding lemma for the retry loop: if the first n answers (from
attempt i on) are retryable and answer n is terminal, fuel n + 1
finishes the loop: a 200 is returned, any other terminal status yields
None, and the recorded sleeps are exactly the policy's. -/
theorem makeRequestAux_spec (resp : Nat → HttpResponse) (nowAt : Nat → Int) :
    ∀ (n i : Nat), (∀ k, k < n → isRetryable (resp (i + k)) = true) →
      isRetryable (resp (i + n)) = false →
      makeRequestAux resp nowAt (n + 1) i
        = some ((if (resp (i + n)).status = 200 then some (resp (i + n)) else none),
                sleepsSpec resp nowAt i n) := by
  intro n
  induction n with
  | zero =>
    intro i _ hterm
    simp only [Nat.add_zero] at hterm
    by_cases h200 : (resp i).status = 200
    · simp [makeRequestAux, h200, sleepsSpec]
    · by_cases h403 : (resp i).status = 403
      · cases hreset : (resp i).rateLimitReset with
        | some t => exfalso; simp [isRetryable, h403, hreset] at hterm
        | none => simp [makeRequestAux, h200, h403, hreset, sleepsSpec]
      · have h5 : ¬ ((resp i).status = 502 ∨ (resp i).status = 503
            ∨ (resp i).status = 504) := by
          intro h; rcases h with h | h | h <;> simp [isRetryable, h] at hterm
        simp [makeRequestAux, h200, h403, h5, sleepsSpec]
  | succ n ih =>
    intro i h hterm
    have h0 : isRetryable (resp i) = true := by simpa using h 0 (Nat.succ_pos n)
    have h200 : ¬ (resp i).status = 200 := by
      intro hs; simp [isRetryable, hs] at h0
    have ihx := ih (i + 1)
      (fun k hk => by
        have hx := h (k + 1) (Nat.succ_lt_succ hk)
        have he : i + (k + 1) = i + 1 + k := by omega
        rwa [he] at hx)
      (by
        have he : i + (n + 1) = i + 1 + n := by omega
        rwa [he] at hterm)
    have hidx : i + 1 + n = i + (n + 1) := by omega
    rw [hidx] at ihx
    by_cases h403 : (resp i).status = 403
    · cases hreset : (resp i).rateLimitReset with
      | some t =>
        rw [makeRequestAux_step, if_neg h200, if_pos h403, hreset]
        rw [ihx]
        simp [sleepsSpec, retrySleep, h403, hreset]
      | none => exfalso; simp [isRetryable, h403, hreset] at h0
    · have h5 : (resp i).status = 502 ∨ (resp i).status = 503
          ∨ (resp i).status = 504 := by
        by_contra hno
        push_neg at hno
        obtain ⟨h502, h503, h504⟩ := hno
        simp [isRetryable, h403, h502, h503, h504] at h0
      rw [makeRequestAux_step, if_neg h200, if_neg h403, if_pos h5]
      rw [ihx]
      simp [sleepsSpec, retrySleep, h403]

/-- C4: make_request returns the response on HTTP 200; a 403 carrying
the rate-limit-reset header makes it sleep exactly
max 0 (reset_time - now) and retry; 502/503/504 make it sleep the fixed
5 seconds and retry; any number n of consecutive retryable answers is
retried (no cap); and the first answer that is neither 200 nor retryable
ends the call immediately with None. -/
theorem make_request_contract (resp : Nat → HttpResponse) (nowAt : Nat → Int)
    (n : Nat) (hretry : ∀ k, k < n → isRetryable (resp k) = true)
    (hterm : isRetryable (resp n) = false) :
    make_request resp nowAt (n + 1)
      = some ((if (resp n).status = 200 then some (resp n) else none),
              sleepsSpec resp nowAt 0 n) := by
  have hx := makeRequestAux_spec resp nowAt n 0
    (fun k hk => by simpa using hretry k hk) (by simpa using hterm)
  simpa [make_request] using hx

/-- Witness for C4: a 403 with reset 100 observed at clock 90, then a
503, then a 200 — the fetcher sleeps 10 and then 5 and returns the 200
response. -/
theorem make_request_contract_witness :
    make_request respW nowW 3
      = some (some { status := 200, rateLimitReset := none }, [10, 5]) := by
  have h := make_request_contract respW nowW 2 (by decide) (by decide)
  rw [h]; rfl

/-! ### Upsert idempotence -/

/-- C2: inserting a record into a table free of its key succeeds
(rowcount 1); a second insert with the same issue_url — the same record
or any other — is a silent no-op reporting false (rowcount 0, hence not
counted into the progress totals), leaves the table unchanged, and the
table holds exactly one row with that key, the one from the first
insert. -/
theorem upsert_idempotent (db : List Row) (r r' : Row)
    (hfresh : ∀ x ∈ db, x.issue_url ≠ r.issue_url)
    (hkey : r'.issue_url = r.issue_url) :
    (insert_or_ignore db r).2 = true
  ∧ (insert_or_ignore (insert_or_ignore db r).1 r').2 = false
  ∧ (insert_or_ignore (insert_or_ignore db r).1 r').1 = (insert_or_ignore db r).1
  ∧ (insert_or_ignore db r).1.filter (fun x => x.issue_url == r.issue_url) = [r] := by
  have hany : db.any (fun x => x.issue_url == r.issue_url) = false := by
    simp only [List.any_eq_false, beq_iff_eq]
    exact hfresh
  have h1 : insert_or_ignore db r = (db ++ [r], true) := by
    simp [insert_or_ignore, hany]
  have hany2 : (db ++ [r]).any (fun x => x.issue_url == r'.issue_url) = true := by
    rw [List.any_eq_true]
    exact ⟨r, by simp, by simp [hkey]⟩
  have h2 : insert_or_ignore (db ++ [r]) r' = (db ++ [r], false) := by
    simp [insert_or_ignore, hany2]
  refine ⟨by simp [h1], by simp [h1, h2], by simp [h1, h2], ?_⟩
  rw [h1]
  simp only [List.filter_append]
  have hdb : db.filter (fun x => x.issue_url == r.issue_url) = [] := by
    simp only [List.filter_eq_nil_iff, beq_iff_eq]
    exact hfresh
  simp [hdb]

/-- Witness for C2 at a concrete row and the empty table. -/
theorem upsert_idempotent_witness :
    (insert_or_ignore [] row0).2 = true
  ∧ (insert_or_ignore (insert_or_ignore [] row0).1 row0).2 = false
  ∧ (insert_or_ignore (insert_or_ignore [] row0).1 row0).1
      = (insert_or_ignore [] row0).1
  ∧ (insert_or_ignore [] row0).1.filter
      (fun x => x.issue_url == row0.issue_url) = [row0] :=
  upsert_idempotent [] row0 row0 (by simp) rfl

/-! ### Reference extractor -/

/-- C5 (amended): the extractor returns one issue URL per match in match
order with duplicates preserved (list, not set, semantics); on the
claim's example body it yields exactly the two expected URLs with no
duplicate, and an absent or empty description yields the empty list. -/
theorem extract_closing_issues_spec :
    get_issues_from_pr (some "Fixes #42 and closes owner/repo#7") "owner/repo"
      = ["https://github.com/owner/repo/issues/42",
         "https://github.com/owner/repo/issues/7"]
  ∧ get_issues_from_pr (some "Fixes #42 and fixes #42") "owner/repo"
      = ["https://github.com/owner/repo/issues/42",
         "https://github.com/owner/repo/issues/42"]
  ∧ (∀ repo, get_issues_from_pr none repo = [])
  ∧ (∀ repo, get_issues_from_pr (some "") repo = []) := by
  refine ⟨by decide, by decide, fun repo => rfl, fun repo => rfl⟩

/-- C5 (counterexample): two identical closing references in one
description produce the same issue URL twice — matches are not collapsed
with set semantics as the claim states. -/
theorem extract_dup_not_collapsed :
    ¬ (get_issues_from_pr (some "Fixes #42 and fixes #42") "owner/repo").Nodup := by
  decide

/-! ### Unescaped repository name in the second pattern -/

/-- C10: the repository name is spliced into the second pattern with
only '/' escaped, so for the repository owner/my.repo a description that
references the differently named owner/myXrepo matches (the '.' acts as
a regex wildcard) and the extractor attributes the issue to the current
repository. -/
theorem unescaped_repo_pattern :
    get_issues_from_pr (some "closes owner/myXrepo#7") "owner/my.repo"
      = ["https://github.com/owner/my.repo/issues/7"]
  ∧ ("owner/myXrepo" : String) ≠ "owner/my.repo" := by
  exact ⟨by decide, by decide⟩

/-! ### Driver-loop lemmas -/

/-- Computation rule for the driver loop. -/
theorem mainLoop_cons (api : Api) (db : List Row) (processed : List String)
    (repo : Repo) (rest : List Repo) :
    mainLoop api db processed (repo :: rest)
      = { db := (mainLoop api (populate_db_from_prs api db [repo]).1
            (processed ++ [repo.full_name]) rest).db,
          total := (populate_db_from_prs api db [repo]).2.1
            + (mainLoop api (populate_db_from_prs api db [repo]).1
                (processed ++ [repo.full_name]) rest).total,
          processed := (mainLoop api (populate_db_from_prs api db [repo]).1
            (processed ++ [repo.full_name]) rest).processed,
          events := (populate_db_from_prs api db [repo]).2.2
            ++ Event.saveProgress (processed ++ [repo.full_name])
              :: (mainLoop api (populate_db_from_prs api db [repo]).1
                  (processed ++ [repo.full_name]) rest).events } := rfl

/-- A populate run saves no progress. -/
theorem populate_savesOf (api : Api) (repos : List Repo) (db : List Row) :
    savesOf (populate_db_from_prs api db repos).2.2 = [] := by
  apply savesOf_eq_nil
  intro e he hnone
  rcases populate_event_shape api repos db e he with ⟨r, _, h2⟩ | rfl
  · rw [hnone] at h2; cases h2
  · simp [isCommit]

/-- The driver loop saves the progress list once per repository, each
save appending that repository's name to the previous list, in
processing order. -/
theorem mainLoop_savesOf (api : Api) :
    ∀ (repos : List Repo) (db : List Row) (processed : List String),
      savesOf (mainLoop api db processed repos).events
        = prefixesFrom processed (repos.map Repo.full_name) := by
  intro repos
  induction repos with
  | nil => intro db processed; rfl
  | cons repo rest ih =>
    intro db processed
    rw [mainLoop_cons]
    show savesOf (_ ++ _ :: _) = _
    rw [savesOf_append, populate_savesOf]
    show ([] : List (List String)) ++ (processed ++ [repo.full_name]) :: savesOf _ = _
    rw [List.nil_append, ih]
    rfl

/-- Every event of the driver loop concerns one of its repositories or
concerns none (commits and saves). -/
theorem mainLoop_event_shape (api : Api) :
    ∀ (repos : List Repo) (db : List Row) (processed : List String),
      ∀ e ∈ (mainLoop api db processed repos).events,
        (∃ r ∈ repos, eventRepo e = some r.full_name) ∨ eventRepo e = none := by
  intro repos
  induction repos with
  | nil => intro db processed e he; simp [mainLoop] at he
  | cons repo rest ih =>
    intro db processed e he
    rw [mainLoop_cons] at he
    rcases List.mem_append.mp he with h | h
    · rcases populate_event_shape api [repo] db e h with ⟨r, hr, h2⟩ | rfl
      · have hrr : r = repo := by simpa using hr
        exact Or.inl ⟨repo, List.mem_cons_self _ _, by rw [← hrr]; exact h2⟩
      · exact Or.inr rfl
    · rcases List.mem_cons.mp h with rfl | h2
      · exact Or.inr rfl
      · rcases ih _ _ e h2 with ⟨r, hr, h3⟩ | h3
        · exact Or.inl ⟨r, List.mem_cons_of_mem _ hr, h3⟩
        · exact Or.inr h3

/-- The driver loop queries the language endpoint once per repository
entry of its list. -/
theorem mainLoop_lang_count (api : Api) (X : String) :
    ∀ (repos : List Repo) (db : List Row) (processed : List String),
      (mainLoop api db processed repos).events.countP (isLangQuery X)
        = (repos.map Repo.full_name).count X := by
  intro repos
  induction repos with
  | nil => intro db processed; rfl
  | cons repo rest ih =>
    intro db processed
    rw [mainLoop_cons]
    show List.countP _ (_ ++ _ :: _) = _
    rw [List.countP_append, List.countP_cons, populate_lang_count, ih]
    rw [List.map_cons, List.count_cons]
    have hs : isLangQuery X (Event.saveProgress (processed ++ [repo.full_name]))
        = false := rfl
    rw [hs]
    by_cases hx : repo.full_name == X
    · simp [hx, List.count_cons]
      omega
    · simp [hx, List.count_cons]

/-! ### Resume correctness (claim C1) -/

/-- C1 (amended): after loading the persisted list, the driver filters
out every candidate already in it, so a run never fetches PRs, queries
languages, or inserts issues for a processed repository; after each
repository completes, its name is appended and the whole list is saved
before the next repository is touched (the saves are exactly the
successive extensions of the loaded list); and provided the candidate
list names each repository at most once, no repository is processed more
than once in a run.  (Without that proviso a duplicated candidate is
retried in the same run, because membership is tested once at startup
— see the counterexample.) -/
theorem resume_correctness (api : Api) (db : List Row) (processed : List String)
    (repos : List Repo) (X : String) :
    (X ∈ processed →
      ∀ e ∈ (main_run api db processed repos).events, touches X e = false)
  ∧ savesOf (main_run api db processed repos).events
      = prefixesFrom processed
          ((repos.filter (fun r => !(processed.contains r.full_name))).map
            Repo.full_name)
  ∧ ((repos.map Repo.full_name).Nodup →
      (main_run api db processed repos).events.countP (isLangQuery X) ≤ 1) := by
  refine ⟨?_, ?_, ?_⟩
  · intro hX e he
    rcases mainLoop_event_shape api _ db processed e he with ⟨r, hr, h2⟩ | h2
    · have hfil : (!(processed.contains r.full_name)) = true :=
        (List.mem_filter.mp hr).2
      have hne : r.full_name ≠ X := by
        intro hEq
        rw [hEq] at hfil
        have hmem : processed.contains X = true := List.elem_iff.mpr hX
        rw [hmem] at hfil
        cases hfil
      simp [touches, h2, hne]
    · simp [touches, h2]
  · exact mainLoop_savesOf api _ db processed
  · intro hnd
    rw [show (main_run api db processed repos).events
        = (mainLoop api db processed
            (repos.filter (fun r => !(processed.contains r.full_name)))).events
      from rfl]
    rw [mainLoop_lang_count]
    calc ((repos.filter (fun r => !(processed.contains r.full_name))).map
            Repo.full_name).count X
        ≤ (repos.map Repo.full_name).count X :=
          List.Sublist.count_le
            (List.Sublist.map Repo.full_name (List.filter_sublist repos)) X
      _ ≤ 1 := List.nodup_iff_count_le_one.mp hnd X

/-- Witness for C1: with "a/b" already processed, a run over candidates
a/b and c/d touches no event for a/b and queries languages at most
once per repository. -/
theorem resume_correctness_witness :
    (∀ e ∈ (main_run api0 [] ["a/b"]
        [{ full_name := "a/b" }, { full_name := "c/d" }]).events,
      touches "a/b" e = false)
  ∧ (main_run api0 [] ["a/b"]
      [{ full_name := "a/b" }, { full_name := "c/d" }]).events.countP
        (isLangQuery "a/b") ≤ 1 :=
  ⟨(resume_correctness api0 [] ["a/b"]
      [{ full_name := "a/b" }, { full_name := "c/d" }] "a/b").1 (by decide),
   (resume_correctness api0 [] ["a/b"]
      [{ full_name := "a/b" }, { full_name := "c/d" }] "a/b").2.2 (by decide)⟩

/-- C1 (counterexample): with an empty persisted set and the candidate
list [o/r, o/r], the run saves a progress list containing o/r after the
first copy and then processes o/r again — the name was added and
persisted, yet it is retried in the same run, against the claim's
"never retried in the same run". -/
theorem resume_retried_in_same_run :
    retriedAfterSave "o/r" (main_run api0 [] [] [repoOR, repoOR]).events = true
  ∧ (main_run api0 [] [] [repoOR, repoOR]).events.countP (isLangQuery "o/r")
      = 2 := by
  exact ⟨by decide, by decide⟩

/-! ### Language lookups (claim C6) -/

/-- C6 (amended): in the PR-driven scraper the language endpoint is
queried exactly once per repository entry processed (so at most once per
repository when the list has no duplicate), every stored row reuses the
languages string computed once for its repository, and a failed language
fetch yields the serialized empty list "[]" instead of aborting.  (The
issue-driven slim.py variant instead queries once per stored record —
see the counterexample.) -/
theorem languages_once_per_repo (api : Api) (db : List Row) (repos : List Repo)
    (X : String) :
    (populate_db_from_prs api db repos).2.2.countP (isLangQuery X)
      = (repos.map Repo.full_name).count X
  ∧ (∀ x ∈ (populate_db_from_prs api db repos).1,
       x ∈ db ∨ x.languages = get_languages api x.repo_name)
  ∧ (api.langResp X = none → get_languages api X = "[]") := by
  refine ⟨populate_lang_count api X repos db, populate_new_rows api repos db, ?_⟩
  intro h
  simp [get_languages, h]

/-- Witness for C6: in the apiPD environment the single repository is
queried once, its stored row carries the languages string of the failed
fetch, and that string is "[]". -/
theorem languages_once_per_repo_witness :
    (populate_db_from_prs apiPD [] [repoOR]).2.2.countP (isLangQuery "o/r") = 1
  ∧ (row5 ∈ ([] : List Row) ∨ row5.languages = get_languages apiPD row5.repo_name)
  ∧ get_languages apiPD "o/r" = "[]" := by
  refine ⟨?_, ?_, (languages_once_per_repo apiPD [] [repoOR] "o/r").2.2 rfl⟩
  · rw [(languages_once_per_repo apiPD [] [repoOR] "o/r").1]
    decide
  · exact (languages_once_per_repo apiPD [] [repoOR] "o/r").2.1 row5 (by decide)

/-- C6 (counterexample): slim.py's populate_db queries the language
endpoint once per stored record, so a repository with two linkable
issues is queried twice — the claim's "at most once per repository" is
false of that variant. -/
theorem languages_queried_per_record :
    ¬ ((slim_populate_db apiS6 [] [repoOR]).2.countP (isLangQuery "o/r") ≤ 1) := by
  decide

/-! ### Commit batching (claim C7) -/

/-- C7 (amended): the batch-commit test runs once per PR, not per
insert: after each PR the code commits exactly when the repository's
running insert count is a positive multiple of ten, and one commit is
issued unconditionally after a repository with PRs finishes.  (A single
PR adding more than ten rows therefore commits nothing at the
ten-row mark — see the counterexample.) -/
theorem commit_batching_boundaries :
    (∀ (api : Api) (db : List Row) (name : String),
       (api.mergedPRs name).isEmpty = false →
       ∃ evs, (processRepo api db name).2.2 = evs ++ [Event.commit])
  ∧ (∀ (api : Api) (name langs : String) (prs : List PR) (db : List Row)
       (added : Nat),
       (processPRs api name langs db added prs).2.2.countP isCommit
         = (prAddedCounts api name langs db added prs).countP
             (fun a => decide (0 < a ∧ a % 10 = 0))) := by
  constructor
  · intro api db name h
    rw [processRepo_eq_nonempty api db name h]
    exact ⟨Event.langQuery name :: Event.prFetch name
      :: (processPRs api name (get_languages api name) db 0
          (api.mergedPRs name)).2.2, by simp⟩
  · intro api name langs prs db added
    exact processPRs_commit_count api name langs prs db added

/-- Witness for C7: the apiPD repository has PRs, so its trace ends with
the unconditional commit. -/
theorem commit_batching_boundaries_witness :
    ∃ evs, (processRepo apiPD [] "o/r").2.2 = evs ++ [Event.commit] :=
  commit_batching_boundaries.1 apiPD [] "o/r" (by decide)

/-- C7 (counterexample): one PR inserting eleven rows commits exactly
once — only the end-of-repository commit, none after the tenth inserted
row — so the claim's "a commit is flushed after every 10th newly added
row" is false, and more than one batch of ten can be lost. -/
theorem commit_batching_cex :
    (populate_db_from_prs api11 [] [repoOR]).2.2.countP isInserted = 11
  ∧ (populate_db_from_prs api11 [] [repoOR]).2.2.countP isCommit = 1 := by
  exact ⟨by decide, by decide⟩

/-! ### Storage-error isolation (claim C8) -/

/-- C8 (amended): in the PR-driven scraper the insert attempts of a run
are exactly the linked issues of every merged PR of every repository — a
function of the PR oracle alone, identical under any storage oracle — so
a sqlite3.Error on one record never prevents any remaining record from
being attempted.  (slim.py's populate_db lacks the try/except and aborts
— see the counterexample.) -/
theorem storage_error_isolation (api : Api) (db : List Row) (repos : List Repo) :
    attemptEvents (populate_db_from_prs api db repos).2.2
      = expectedAttempts api.mergedPRs repos
  ∧ attemptEvents (populate_db_from_prs
      { api with storageFails := fun _ => false } db repos).2.2
      = expectedAttempts api.mergedPRs repos := by
  exact ⟨populate_attempts api repos db,
    populate_attempts { api with storageFails := fun _ => false } repos db⟩

/-- C8 (counterexample): in slim.py a storage error on the first record
propagates: the run aborts and the second record is never attempted,
against the claim's "every remaining record is still attempted". -/
theorem storage_error_aborts_slim :
    slimAborted (slim_populate_db apiS8 [] [repoOR]).1 = true
  ∧ attemptEvents (slim_populate_db apiS8 [] [repoOR]).2
      = ["https://github.com/o/r/issues/1"] := by
  exact ⟨by decide, by decide⟩

/-! ### Partial-data tolerance (claim C9) -/

/-- C9: a PR whose description links no issues changes nothing and
attempts no insert; a failed changed-files fetch serializes to "[]";
every row a PR adds carries that PR's affected-files string and degrades
a missing base/head SHA to a null before/after URL; and a linked issue
whose key is fresh and whose insert does not raise is stored — the
record is built, not dropped. -/
theorem partial_data_tolerance (api : Api) (name langs : String) (db : List Row)
    (added : Nat) (pr : PR) :
    (get_issues_from_pr pr.body name = [] →
       (processPR api name langs db added pr).1 = db
       ∧ attemptEvents (processPR api name langs db added pr).2.2 = [])
  ∧ (api.filesResp (filesUrlOf pr.html_url) = none →
       get_affected_files api pr.html_url = "[]")
  ∧ (∀ x ∈ (processPR api name langs db added pr).1, x ∉ db →
       x.affected_files = get_affected_files api pr.html_url
       ∧ (pr.base_sha = none → x.before_code_url = none)
       ∧ (pr.head_sha = none → x.after_code_url = none))
  ∧ (∀ u ∈ get_issues_from_pr pr.body name,
       api.storageFails u = false → (∀ x ∈ db, x.issue_url ≠ u) →
       prRow api name langs pr u ∈ (processPR api name langs db added pr).1) := by
  refine ⟨?_, ?_, ?_, ?_⟩
  · intro h
    have hemp : (get_issues_from_pr pr.body name).isEmpty = true := by
      rw [h]; rfl
    constructor
    · rw [processPR_eq_empty api name langs db added pr hemp]
    · rw [processPR_attempts, h]
  · intro h
    unfold get_affected_files
    by_cases hu : pr.html_url = "" <;> simp [hu, h]
  · intro x hx hnotdb
    rcases processPR_new_rows api name langs db added pr x hx with h | ⟨u, _, rfl⟩
    · exact absurd h hnotdb
    · refine ⟨rfl, ?_, ?_⟩
      · intro hb; simp [prRow, mkRow, beforeUrl, hb]
      · intro hh; simp [prRow, mkRow, afterUrl, hh]
  · intro u hu hfail hfresh
    have hemp : (get_issues_from_pr pr.body name).isEmpty = false := by
      cases hl : get_issues_from_pr pr.body name with
      | nil => rw [hl] at hu; exact absurd hu (List.not_mem_nil u)
      | cons a l => rfl
    rw [processPR_eq_nonempty api name langs db added pr hemp]
    exact insertIssues_fresh_insert api name (prRow api name langs pr)
      (fun v => rfl) _ db added u hu hfail hfresh

/-- Witness for C9: in the apiPD environment the no-link PR changes
nothing, the failed files fetch serializes to "[]", prPD's fresh linked
issue is stored, and its stored row has empty affected files and null
before/after URLs. -/
theorem partial_data_tolerance_witness :
    ((processPR apiPD "o/r" "[]" [] 0 prNoLink).1 = ([] : List Row)
      ∧ attemptEvents (processPR apiPD "o/r" "[]" [] 0 prNoLink).2.2 = [])
  ∧ get_affected_files apiPD prPD.html_url = "[]"
  ∧ prRow apiPD "o/r" "[]" prPD "https://github.com/o/r/issues/5"
      ∈ (processPR apiPD "o/r" "[]" [] 0 prPD).1
  ∧ (row5.affected_files = get_affected_files apiPD prPD.html_url
      ∧ row5.before_code_url = none ∧ row5.after_code_url = none) := by
  refine ⟨(partial_data_tolerance apiPD "o/r" "[]" [] 0 prNoLink).1 (by decide),
    (partial_data_tolerance apiPD "o/r" "[]" [] 0 prPD).2.1 rfl,
    (partial_data_tolerance apiPD "o/r" "[]" [] 0 prPD).2.2.2
      "https://github.com/o/r/issues/5" (by decide) rfl (by simp), ?_⟩
  have h := (partial_data_tolerance apiPD "o/r" "[]" [] 0 prPD).2.2.1
    row5 (by decide) (by simp)
  exact ⟨h.1, h.2.1 rfl, h.2.2 rfl⟩

end SlimGrab
